import Mathlib

/-!
Verification of the `summary-metrics/video_aggregator.py` aggregation pipeline.

The source program has three functions:

* `fetch_raw_events_from_db` — returns a fixed illustrative list of eight raw
  events (each a dict with `user_id`, `session_id`, `event_type`, `timestamp`).
* `aggregate_buffering_data` — sorts the events by the raw `timestamp` value
  (Python `sorted` with `key=lambda x: x['timestamp']`, a stable sort), then,
  per session, pairs `buffer_start` / `buffer_end` events: a `buffer_start`
  stores (overwriting) a pending start time for its session; a `buffer_end`
  with a pending start adds `end - start` (in seconds) to the session's
  running total, increments its event count, and deletes the pending entry;
  a `buffer_end` without a pending start is skipped with a printed warning.
  Timestamps are parsed by `datetime.fromisoformat` after `str.strip('Z')`
  (which removes `'Z'` characters from BOTH ends); a `ValueError`/`TypeError`
  during parsing skips the event with a printed diagnostic.
* `generate_summary_metrics` — folds the per-session aggregates into totals
  and averages, with explicit zero-denominator guards.

Embedding decisions, each mirroring the source:

* Python dicts (`session_states`, `aggregated_data`) are modelled as
  insertion-ordered association lists with unique keys: `setk` updates the
  binding in place or appends, `delk` removes the binding, `lookupk` finds it.
* Printed diagnostics are modelled as a `Diag` list threaded through the state.
* Uncaught Python exceptions are modelled with `Except PyErr`:
  `attributeError` models the `AttributeError` raised by `.strip('Z')` when
  the timestamp is not a string (the source's `except (ValueError, TypeError)`
  does not catch it), and `typeError` models both the `TypeError` raised by
  `sorted` on a list mixing string and non-string timestamps and the
  `TypeError` raised by subtracting an offset-aware datetime from a naive one.
* A timestamp value is `TSVal`: either a string or (`TSVal.intVal`) a
  non-string value such as an integer, which `sorted` orders numerically and
  `.strip` rejects.  The ordering between `intVal` and `str` used by the sort
  is an arbitrary total extension: it is unreachable, because a list holding
  both kinds fails with `typeError` before any comparison, as in Python.
* `datetime.fromisoformat` is modelled on the grammar
  `YYYY-MM-DD[<any sep char>HH[:MM[:SS]]][±HH:MM[:SS]]` with the source
  language's field validation (calendar-valid date with leap years, hour
  under 24, minute and second under 60, absolute offset under 24 hours).
  Fractional seconds and the lenient numeric forms accepted by Python's
  `int()` (leading `+`, underscores) are treated as unparseable; no claim
  depends on them.  Parsed datetimes are a count of seconds from a fixed
  origin plus an optional offset in seconds; numeric results are exact
  (`Int`/`ℚ`), valid because every quantity handled is an integer number of
  seconds, on which Python float arithmetic is exact.
* Python `sorted` is a stable ascending sort; it is modelled by a stable
  insertion sort (`sortLe`), which computes the same output as any stable
  sort for a total preorder.
-/

deriving instance DecidableEq for Except

/-- Timestamp field value: a Python string, or a non-string value (modelled by
an integer) on which `.strip` raises `AttributeError`. -/
inductive TSVal : Type where
  | str (s : String)
  | intVal (n : Int)
deriving DecidableEq

/-- Raw event record, mirroring one dict of the source's event list. -/
structure RawEvent where
  user_id : String
  session_id : String
  event_type : String
  timestamp : TSVal
deriving DecidableEq

/-- Parsed datetime: seconds from a fixed origin (date and time-of-day
combined), plus an optional UTC offset in seconds when the string carried a
`±HH:MM[:SS]` suffix (an "aware" datetime). -/
structure DT where
  secs : Int
  off : Option Int
deriving DecidableEq

/-- Per-session aggregate, mirroring the inner dict of `aggregated_data`. -/
structure Agg where
  total_buffer_duration_seconds : Int
  buffer_events_count : Nat
deriving DecidableEq

/-- Diagnostics printed by the source (modelled as data, not I/O). -/
inductive Diag : Type where
  | invalidTimestamp (raw : String)
  | unmatchedEnd (session : String)
deriving DecidableEq

/-- Uncaught Python exceptions of the source program. -/
inductive PyErr : Type where
  | attributeError
  | typeError
deriving DecidableEq

/-- Summary record returned by `generate_summary_metrics`. -/
structure Summary where
  total_sessions_with_buffering : Nat
  total_buffer_time_seconds : ℚ
  total_buffer_events : Nat
  average_buffer_time_per_session_seconds : ℚ
  average_buffer_time_per_event_seconds : ℚ
deriving DecidableEq

/-! ## Timestamp parsing (`datetime.fromisoformat` after `.strip('Z')`) -/

/-- Numeric value of a decimal digit character, if it is one. -/
def digitVal (c : Char) : Option Nat :=
  if 48 ≤ c.toNat ∧ c.toNat ≤ 57 then some (c.toNat - 48) else none

/-- Two-digit number. -/
def num2 (a b : Char) : Option Nat :=
  match digitVal a, digitVal b with
  | some x, some y => some (10 * x + y)
  | _, _ => none

/-- Four-digit number. -/
def num4 (a b c d : Char) : Option Nat :=
  match num2 a b, num2 c d with
  | some x, some y => some (100 * x + y)
  | _, _ => none

/-- Gregorian leap-year test. -/
def isLeap (y : Nat) : Bool :=
  y % 4 == 0 && (y % 100 != 0 || y % 400 == 0)

/-- Days in month `m` (1-based) of a (leap or not) year. -/
def monthDays (leap : Bool) (m : Nat) : Nat :=
  if m = 2 then (if leap then 29 else 28)
  else if m = 4 ∨ m = 6 ∨ m = 9 ∨ m = 11 then 30
  else 31

/-- Days strictly before month `m` (1-based) in the same year. -/
def daysBeforeMonth (leap : Bool) : Nat → Nat
  | 0 => 0
  | 1 => 0
  | n + 1 => daysBeforeMonth leap n + monthDays leap n

/-- Days strictly before January 1 of year `y` counted from year 1. -/
def daysBeforeYear (y : Nat) : Nat :=
  (y - 1) * 365 + (y - 1) / 4 - (y - 1) / 100 + (y - 1) / 400

/-- Seconds from the origin for a calendar date and time of day. -/
def dateTimeSecs (y mo d h mi s : Nat) : Int :=
  ((daysBeforeYear y + daysBeforeMonth (isLeap y) mo + (d - 1)) * 86400
    + h * 3600 + mi * 60 + s : Nat)

/-- Time-of-day digits `HH`, `HH:MM` or `HH:MM:SS` (no fractional part). -/
def timeNums : List Char → Option (Nat × Nat × Nat)
  | [a, b] => (num2 a b).map (fun h => (h, 0, 0))
  | [a, b, ':', c, d] =>
    match num2 a b, num2 c d with
    | some h, some m => some (h, m, 0)
    | _, _ => none
  | [a, b, ':', c, d, ':', e, f] =>
    match num2 a b, num2 c d, num2 e f with
    | some h, some m, some s => some (h, m, s)
    | _, _, _ => none
  | _ => none

/-- UTC-offset digits `HH:MM` or `HH:MM:SS`, in seconds (unsigned). -/
def offNums : List Char → Option Nat
  | [a, b, ':', c, d] =>
    match num2 a b, num2 c d with
    | some h, some m => some (h * 3600 + m * 60)
    | _, _ => none
  | [a, b, ':', c, d, ':', e, f] =>
    match num2 a b, num2 c d, num2 e f with
    | some h, some m, some s => some (h * 3600 + m * 60 + s)
    | _, _, _ => none
  | _ => none

/-- Split a time string at the first `+` or `-`, which starts the UTC offset;
returns the part before it and, when present, the sign (`true` for `+`) and
the part after it. -/
def splitSign : List Char → List Char × Option (Bool × List Char)
  | [] => ([], none)
  | c :: rest =>
    if c = '+' then ([], some (true, rest))
    else if c = '-' then ([], some (false, rest))
    else
      let (a, b) := splitSign rest
      (c :: a, b)

/-- Parse of the time-and-offset part following the date and separator char. -/
def parseTimeOff (timeCs : List Char) : Option (Nat × Nat × Nat × Option Int) :=
  match splitSign timeCs with
  | (tpart, signPart) =>
    match timeNums tpart with
    | some (h, mi, s) =>
      if h ≤ 23 ∧ mi ≤ 59 ∧ s ≤ 59 then
        match signPart with
        | none => some (h, mi, s, none)
        | some (pos, offCs) =>
          match offNums offCs with
          | some o =>
            if o < 86400 then
              some (h, mi, s, some (if pos then (o : Int) else -(o : Int)))
            else none
          | none => none
      else none
    | none => none

/-- Model of `datetime.fromisoformat` on a character list: a zero-padded
calendar date `YYYY-MM-DD`, optionally followed by one arbitrary separator
character, a time of day and an optional `±HH:MM[:SS]` offset. -/
def parseTs : List Char → Option DT
  | y1 :: y2 :: y3 :: y4 :: '-' :: m1 :: m2 :: '-' :: d1 :: d2 :: rest =>
    match num4 y1 y2 y3 y4, num2 m1 m2, num2 d1 d2 with
    | some y, some mo, some d =>
      if 1 ≤ y ∧ 1 ≤ mo ∧ mo ≤ 12 ∧ 1 ≤ d ∧ d ≤ monthDays (isLeap y) mo then
        match rest with
        | [] => some ⟨dateTimeSecs y mo d 0 0 0, none⟩
        | _ :: timeCs =>
          match parseTimeOff timeCs with
          | some (h, mi, s, off) => some ⟨dateTimeSecs y mo d h mi s, off⟩
          | none => none
      else none
    | _, _, _ => none
  | _ => none

/-- Model of `str.strip('Z')`: removes every leading and trailing `'Z'`. -/
def stripZ (s : String) : List Char :=
  ((s.data.dropWhile (fun c => c = 'Z')).reverse.dropWhile (fun c => c = 'Z')).reverse

/-- Timestamp parse as the source performs it: strip `'Z'` from both ends,
then `datetime.fromisoformat`. -/
def parseTimestampStr (s : String) : Option DT :=
  parseTs (stripZ s)

/-- Difference of two parsed datetimes in seconds
(`(timestamp - buffer_start_time).total_seconds()`): defined for two naive or
two aware values; a naive/aware mix raises `TypeError` in Python, modelled by
`none`. -/
def dtSub (a b : DT) : Option Int :=
  match a.off, b.off with
  | none, none => some (a.secs - b.secs)
  | some o1, some o2 => some ((a.secs - o1) - (b.secs - o2))
  | _, _ => none

/-! ## Association lists modelling Python dicts

Python dicts are insertion-ordered with unique keys; `setk` updates an
existing binding in place (keeping its position) or appends a new one, `delk`
removes the binding of a key, `lookupk` retrieves it. -/

/-- Dict lookup. -/
def lookupk {β : Type} (k : String) : List (String × β) → Option β
  | [] => none
  | (k', v) :: rest => if k' = k then some v else lookupk k rest

/-- Dict assignment `d[k] = v`: update in place or append. -/
def setk {β : Type} (k : String) (v : β) : List (String × β) → List (String × β)
  | [] => [(k, v)]
  | (k', v') :: rest => if k' = k then (k, v) :: rest else (k', v') :: setk k v rest

/-- Dict deletion `del d[k]` (keys are unique in every reachable state, so
removing every binding of `k` coincides with removing its unique binding). -/
def delk {β : Type} (k : String) : List (String × β) → List (String × β)
  | [] => []
  | (k', v) :: rest => if k' = k then delk k rest else (k', v) :: delk k rest

/-! ## Stable sort (Python `sorted(_, key=lambda x: x['timestamp'])`) -/

/-- Lexicographic comparison of character lists by code point, the order
Python uses on strings. -/
def charListLe : List Char → List Char → Bool
  | [], _ => true
  | _ :: _, [] => false
  | a :: as, b :: bs =>
    if a.toNat < b.toNat then true
    else if b.toNat < a.toNat then false
    else charListLe as bs

/-- Order on sort keys: strings lexicographically, non-strings numerically.
The cross-kind cases are an arbitrary total extension and are unreachable:
a mixed list raises `TypeError` before any comparison. -/
def tsLeB : TSVal → TSVal → Bool
  | .str a, .str b => charListLe a.data b.data
  | .intVal a, .intVal b => a ≤ b
  | .intVal _, .str _ => true
  | .str _, .intVal _ => false

/-- Event comparison used by the sort: by the raw `timestamp` value. -/
def evLe (a b : RawEvent) : Bool :=
  tsLeB a.timestamp b.timestamp

/-- Insertion step of a stable insertion sort: place `a` after every element
`≤` it. -/
def insLe {α : Type} (le : α → α → Bool) (a : α) : List α → List α
  | [] => [a]
  | b :: bs => if le b a then b :: insLe le a bs else a :: b :: bs

/-- Left fold of insertions: elements are inserted in input order, making the
sort stable. -/
def sortIntoLe {α : Type} (le : α → α → Bool) : List α → List α → List α
  | acc, [] => acc
  | acc, a :: as => sortIntoLe le (insLe le a acc) as

/-- Stable ascending sort, the model of Python `sorted`. -/
def sortLe {α : Type} (le : α → α → Bool) (l : List α) : List α :=
  sortIntoLe le [] l

/-- The event list in the order `aggregate_buffering_data` processes it. -/
def sortL (l : List RawEvent) : List RawEvent :=
  sortLe evLe l

/-- Whether a sort-key value is a string. -/
def isStrTs : TSVal → Bool
  | .str _ => true
  | .intVal _ => false

/-- Python `sorted` raises `TypeError` exactly when the keys mix strings and
non-strings (the run-detection pass compares every adjacent pair). -/
def mixedTs (l : List RawEvent) : Bool :=
  l.any (fun e => isStrTs e.timestamp) && l.any (fun e => !isStrTs e.timestamp)

/-- Model of `sorted(raw_events, key=lambda x: x['timestamp'])`. -/
def sortEvents (l : List RawEvent) : Except PyErr (List RawEvent) :=
  if mixedTs l then .error .typeError else .ok (sortL l)

/-! ## The aggregation loop -/

/-- Loop state of `aggregate_buffering_data`: `pending` is `session_states`,
`agg` is `aggregated_data`, `diags` collects the printed diagnostics. -/
structure LoopState where
  pending : List (String × DT)
  agg : List (String × Agg)
  diags : List Diag
deriving DecidableEq

/-- Initial loop state. -/
def initState : LoopState :=
  ⟨[], [], []⟩

/-- Update of one session's aggregate: the `defaultdict` supplies `(0, 0)` on
first access, then the duration is added and the count incremented. -/
def bumpA (a : Option Agg) (d : Int) : Agg :=
  match a with
  | none => ⟨d, 1⟩
  | some x => ⟨x.total_buffer_duration_seconds + d, x.buffer_events_count + 1⟩

/-- Loop body after a successful timestamp parse (the `buffer_start` /
`buffer_end` branches of the source). -/
def stepParsed (st : LoopState) (sid ty : String) (t : DT) : Except PyErr LoopState :=
  if ty = "buffer_start" then
    .ok { st with pending := setk sid t st.pending }
  else if ty = "buffer_end" then
    match lookupk sid st.pending with
    | some t0 =>
      match dtSub t t0 with
      | none => .error .typeError
      | some d =>
        .ok { st with
          pending := delk sid st.pending,
          agg := setk sid (bumpA (lookupk sid st.agg) d) st.agg }
    | none => .ok { st with diags := st.diags ++ [.unmatchedEnd sid] }
  else .ok st

/-- One iteration of the loop of `aggregate_buffering_data` on one event. -/
def step (st : LoopState) (e : RawEvent) : Except PyErr LoopState :=
  match e.timestamp with
  | .intVal _ => .error .attributeError
  | .str raw =>
    match parseTimestampStr raw with
    | none => .ok { st with diags := st.diags ++ [.invalidTimestamp raw] }
    | some t => stepParsed st e.session_id e.event_type t

/-- The whole loop: iterate `step`, propagating an uncaught exception. -/
def foldSteps (st : LoopState) : List RawEvent → Except PyErr LoopState
  | [] => .ok st
  | e :: es =>
    match step st e with
    | .error err => .error err
    | .ok st' => foldSteps st' es

/-- Model of `aggregate_buffering_data` including diagnostics: sort, then run
the loop. -/
def aggregateRun (l : List RawEvent) : Except PyErr LoopState :=
  match sortEvents l with
  | .error err => .error err
  | .ok es => foldSteps initState es

/-- Model of `aggregate_buffering_data`: the returned per-session mapping
(or the uncaught exception). -/
def aggregate_buffering_data (l : List RawEvent) : Except PyErr (List (String × Agg)) :=
  match aggregateRun l with
  | .error err => .error err
  | .ok st => .ok st.agg

/-! ## Summary metrics -/

/-- Model of `generate_summary_metrics`. -/
def generate_summary_metrics (m : List (String × Agg)) : Summary :=
  let total : ℚ :=
    m.foldl (fun acc p => acc + (p.2.total_buffer_duration_seconds : ℚ)) 0
  let events : Nat := m.foldl (fun acc p => acc + p.2.buffer_events_count) 0
  let sessions : Nat := m.length
  { total_sessions_with_buffering := sessions
    total_buffer_time_seconds := total
    total_buffer_events := events
    average_buffer_time_per_session_seconds :=
      if sessions > 0 then total / (sessions : ℚ) else 0
    average_buffer_time_per_event_seconds :=
      if events > 0 then total / (events : ℚ) else 0 }

/-- The illustrative dataset returned by `fetch_raw_events_from_db`. -/
def fetch_raw_events_from_db : List RawEvent :=
  [⟨"user_1", "session_A", "buffer_start", .str "2023-10-27T10:00:15Z"⟩,
   ⟨"user_2", "session_B", "buffer_start", .str "2023-10-27T10:01:05Z"⟩,
   ⟨"user_1", "session_A", "buffer_end", .str "2023-10-27T10:00:18Z"⟩,
   ⟨"user_3", "session_C", "buffer_start", .str "2023-10-27T10:02:30Z"⟩,
   ⟨"user_2", "session_B", "buffer_end", .str "2023-10-27T10:01:10Z"⟩,
   ⟨"user_1", "session_A", "buffer_start", .str "2023-10-27T10:05:00Z"⟩,
   ⟨"user_3", "session_C", "buffer_end", .str "2023-10-27T10:02:35Z"⟩,
   ⟨"user_1", "session_A", "buffer_end", .str "2023-10-27T10:05:02Z"⟩]

/-! ## Derived per-session view of the loop

The loop state is keyed by `session_id`; the following definitions give the
projection of the loop onto one session, used to state and prove the
per-session properties (pairing policy, order independence, the sum
invariant).  They are proved to agree with the loop itself
(`foldSteps_proj`, `foldSteps_err`). -/

/-- Projection of the loop state onto one session: its pending start and its
aggregate entry. -/
def proj (s : String) (st : LoopState) : Option DT × Option Agg :=
  (lookupk s st.pending, lookupk s st.agg)

/-- Per-session analogue of `stepParsed`. -/
def stepSParsed (ss : Option DT × Option Agg) (ty : String) (t : DT) :
    Except PyErr (Option DT × Option Agg) :=
  if ty = "buffer_start" then .ok (some t, ss.2)
  else if ty = "buffer_end" then
    match ss.1 with
    | some t0 =>
      match dtSub t t0 with
      | none => .error .typeError
      | some d => .ok (none, some (bumpA ss.2 d))
    | none => .ok ss
  else .ok ss

/-- Per-session analogue of `step` (diagnostics are not tracked). -/
def stepS (ss : Option DT × Option Agg) (e : RawEvent) :
    Except PyErr (Option DT × Option Agg) :=
  match e.timestamp with
  | .intVal _ => .error .attributeError
  | .str raw =>
    match parseTimestampStr raw with
    | none => .ok ss
    | some t => stepSParsed ss e.event_type t

/-- Per-session analogue of `foldSteps`. -/
def foldS (ss : Option DT × Option Agg) : List RawEvent → Except PyErr (Option DT × Option Agg)
  | [] => .ok ss
  | e :: es =>
    match stepS ss e with
    | .error err => .error err
    | .ok ss' => foldS ss' es

/-- The subsequence of events belonging to one session. -/
def filterS (s : String) (l : List RawEvent) : List RawEvent :=
  l.filter (fun e => e.session_id == s)

/-! ## Specification-side pairing

`pairsOf` lists the matched (start, end) second-valued intervals extracted
from one session's processed event subsequence, exactly as the loop pairs
them: a start overwrites the pending start, an end with a pending start
completes a pair.  `parsedTrace` reduces an event subsequence to its
(event type, parsed seconds) content, dropping unparseable timestamps. -/

/-- Event type and parsed naive seconds of each parseable event. -/
def parsedTrace (es : List RawEvent) : List (String × Int) :=
  es.filterMap (fun e =>
    match e.timestamp with
    | .str raw => (parseTimestampStr raw).map (fun t => (e.event_type, t.secs))
    | .intVal _ => none)

/-- Matched (start seconds, end seconds) pairs of one session's trace, given
the pending start carried in. -/
def pairsOf : Option Int → List (String × Int) → List (Int × Int)
  | _, [] => []
  | p, (ty, t) :: rest =>
    if ty = "buffer_start" then pairsOf (some t) rest
    else if ty = "buffer_end" then
      match p with
      | some t0 => (t0, t) :: pairsOf none rest
      | none => pairsOf none rest
    else pairsOf p rest

/-- Sum of the (signed) durations of a pair list. -/
def sumDur : List (Int × Int) → Int
  | [] => 0
  | pr :: ps => (pr.2 - pr.1) + sumDur ps

/-- Effect of a pair list on a session's aggregate entry: no completed pair
leaves the entry as it is (in particular absent), otherwise durations add and
the count grows by the number of pairs. -/
def addPairs (a : Option Agg) (ps : List (Int × Int)) : Option Agg :=
  if ps.isEmpty then a
  else some ⟨(a.elim 0 Agg.total_buffer_duration_seconds) + sumDur ps,
             (a.elim 0 Agg.buffer_events_count) + ps.length⟩

/-- Timestamp values whose parse is naive (no UTC offset); non-string values
are excluded. -/
def naiveTsB : TSVal → Bool
  | .str raw =>
    match parseTimestampStr raw with
    | some t => t.off.isNone
    | none => true
  | .intVal _ => false

/-- Key fields of an event: everything `aggregate_buffering_data` reads. -/
def evKey (e : RawEvent) : String × String × TSVal :=
  (e.session_id, e.event_type, e.timestamp)

/-- Sort-key order lifted to key triples. -/
def keyLe (a b : String × String × TSVal) : Bool :=
  tsLeB a.2.2 b.2.2

/-- Sort-key order lifted to index-tagged events, for stating stability. -/
def evLeIdx (a b : Nat × RawEvent) : Bool :=
  evLe a.2 b.2

/-! # Lemmas -/

/-! ## Association-list (dict) lemmas -/

theorem lookupk_setk_self {β : Type} (k : String) (v : β) :
    ∀ l : List (String × β), lookupk k (setk k v l) = some v
  | [] => by simp [setk, lookupk]
  | (k', v') :: rest => by
    by_cases h : k' = k
    · simp [setk, h, lookupk]
    · simp [setk, h, lookupk, lookupk_setk_self k v rest]

theorem lookupk_setk_ne {β : Type} (k k' : String) (v : β) (hne : k' ≠ k) :
    ∀ l : List (String × β), lookupk k' (setk k v l) = lookupk k' l
  | [] => by simp [setk, lookupk, Ne.symm hne]
  | (a, b) :: rest => by
    by_cases h : a = k
    · subst h
      simp [setk, lookupk, hne, Ne.symm hne]
    · simp [setk, h, lookupk, lookupk_setk_ne k k' v hne rest]

theorem lookupk_delk_self {β : Type} (k : String) :
    ∀ l : List (String × β), lookupk k (delk k l) = none
  | [] => by simp [delk, lookupk]
  | (a, b) :: rest => by
    by_cases h : a = k
    · simp [delk, h, lookupk_delk_self k rest]
    · simp [delk, h, lookupk, lookupk_delk_self k rest]

theorem lookupk_delk_ne {β : Type} (k k' : String) (hne : k' ≠ k) :
    ∀ l : List (String × β), lookupk k' (delk k l) = lookupk k' l
  | [] => by simp [delk, lookupk]
  | (a, b) :: rest => by
    by_cases h : a = k
    · have hak : ¬ k = k' := Ne.symm hne
      simp [delk, h, lookupk, hak, lookupk_delk_ne k k' hne rest]
    · simp [delk, h, lookupk, lookupk_delk_ne k k' hne rest]

theorem setk_setk {β : Type} (k : String) (v1 v2 : β) :
    ∀ l : List (String × β), setk k v2 (setk k v1 l) = setk k v2 l
  | [] => by simp [setk]
  | (a, b) :: rest => by
    by_cases h : a = k
    · simp [setk, h]
    · simp [setk, h, setk_setk k v1 v2 rest]

theorem delk_setk {β : Type} (k : String) (v : β) :
    ∀ l : List (String × β), delk k (setk k v l) = delk k l
  | [] => by simp [setk, delk]
  | (a, b) :: rest => by
    by_cases h : a = k
    · simp [setk, h, delk]
    · simp [setk, h, delk, delk_setk k v rest]

/-! ## The sort order is a total preorder -/

theorem charListLe_total : ∀ a b : List Char, charListLe a b = true ∨ charListLe b a = true
  | [], _ => Or.inl rfl
  | _ :: _, [] => Or.inr rfl
  | a :: as, b :: bs => by
    simp only [charListLe]
    rcases Nat.lt_trichotomy a.toNat b.toNat with h | h | h
    · left
      rw [if_pos h]
    · rw [if_neg (by omega), if_neg (by omega), if_neg (by omega), if_neg (by omega)]
      exact charListLe_total as bs
    · right
      rw [if_pos h]

theorem charListLe_trans :
    ∀ a b c : List Char, charListLe a b = true → charListLe b c = true → charListLe a c = true
  | [], _, _ => fun _ _ => rfl
  | _ :: _, [], _ => fun h _ => by simp [charListLe] at h
  | _ :: _, _ :: _, [] => fun _ h => by simp [charListLe] at h
  | a :: as, b :: bs, c :: cs => fun h1 h2 => by
    simp only [charListLe] at h1 h2 ⊢
    rcases Nat.lt_trichotomy a.toNat b.toNat with hab | hab | hab
    · rcases Nat.lt_trichotomy b.toNat c.toNat with hbc | hbc | hbc
      · rw [if_pos (by omega)]
      · rw [if_pos (by omega)]
      · rw [if_neg (by omega), if_pos hbc] at h2
        exact absurd h2 (by simp)
    · rcases Nat.lt_trichotomy b.toNat c.toNat with hbc | hbc | hbc
      · rw [if_pos (by omega)]
      · rw [if_neg (by omega), if_neg (by omega)] at h1 h2 ⊢
        exact charListLe_trans as bs cs h1 h2
      · rw [if_neg (by omega), if_pos hbc] at h2
        exact absurd h2 (by simp)
    · rw [if_neg (by omega), if_pos hab] at h1
      exact absurd h1 (by simp)

theorem tsLeB_total : ∀ a b : TSVal, tsLeB a b = true ∨ tsLeB b a = true
  | .str a, .str b => charListLe_total a.data b.data
  | .intVal a, .intVal b => by
    simp only [tsLeB, decide_eq_true_eq]
    omega
  | .intVal _, .str _ => Or.inl rfl
  | .str _, .intVal _ => Or.inr rfl

theorem tsLeB_trans :
    ∀ a b c : TSVal, tsLeB a b = true → tsLeB b c = true → tsLeB a c = true
  | .str _, .str _, .str _ => fun h1 h2 => charListLe_trans _ _ _ h1 h2
  | .intVal _, .intVal _, .intVal _ => fun h1 h2 => by
    simp only [tsLeB, decide_eq_true_eq] at h1 h2 ⊢
    omega
  | .intVal _, .intVal _, .str _ => fun _ _ => rfl
  | .intVal _, .str _, .str _ => fun _ _ => rfl
  | .str _, .intVal _, _ => fun h1 _ => by simp [tsLeB] at h1
  | .intVal _, .str _, .intVal _ => fun _ h2 => by simp [tsLeB] at h2
  | .str _, .str _, .intVal _ => fun _ h2 => by simp [tsLeB] at h2

theorem evLe_total (a b : RawEvent) : evLe a b = true ∨ evLe b a = true :=
  tsLeB_total a.timestamp b.timestamp

theorem evLe_trans (a b c : RawEvent) (h1 : evLe a b = true) (h2 : evLe b c = true) :
    evLe a c = true :=
  tsLeB_trans _ _ _ h1 h2

/-! ## Stable insertion sort lemmas -/

theorem perm_insLe {α : Type} (le : α → α → Bool) (a : α) :
    ∀ l : List α, (insLe le a l).Perm (a :: l)
  | [] => List.Perm.refl _
  | b :: bs => by
    simp only [insLe]
    split
    · exact ((perm_insLe le a bs).cons b).trans (List.Perm.swap a b bs)
    · exact List.Perm.refl _

theorem perm_sortIntoLe {α : Type} (le : α → α → Bool) :
    ∀ (l acc : List α), (sortIntoLe le acc l).Perm (acc ++ l)
  | [], acc => by simp [sortIntoLe]
  | a :: as, acc => by
    simp only [sortIntoLe]
    refine (perm_sortIntoLe le as (insLe le a acc)).trans ?_
    refine ((perm_insLe le a acc).append_right as).trans ?_
    exact List.perm_middle.symm

theorem perm_sortLe {α : Type} (le : α → α → Bool) (l : List α) :
    (sortLe le l).Perm l :=
  perm_sortIntoLe le l []

theorem pairwise_insLe {α : Type} (le : α → α → Bool)
    (htot : ∀ a b, le a b = true ∨ le b a = true)
    (htr : ∀ a b c, le a b = true → le b c = true → le a c = true) (a : α) :
    ∀ l : List α, l.Pairwise (fun x y => le x y = true) →
      (insLe le a l).Pairwise (fun x y => le x y = true)
  | [], _ => by simp [insLe]
  | b :: bs, hp => by
    rcases List.pairwise_cons.mp hp with ⟨hb, hbs⟩
    simp only [insLe]
    split
    case isTrue h =>
      refine List.pairwise_cons.mpr ⟨?_, pairwise_insLe le htot htr a bs hbs⟩
      intro x hx
      rcases List.mem_cons.mp ((perm_insLe le a bs).mem_iff.mp hx) with rfl | hxbs
      · exact h
      · exact hb x hxbs
    case isFalse h =>
      have hab : le a b = true := (htot a b).resolve_right (by simpa using h)
      refine List.pairwise_cons.mpr ⟨?_, hp⟩
      intro x hx
      rcases List.mem_cons.mp hx with rfl | hxbs
      · exact hab
      · exact htr a b x hab (hb x hxbs)

theorem pairwise_sortIntoLe {α : Type} (le : α → α → Bool)
    (htot : ∀ a b, le a b = true ∨ le b a = true)
    (htr : ∀ a b c, le a b = true → le b c = true → le a c = true) :
    ∀ (l acc : List α), acc.Pairwise (fun x y => le x y = true) →
      (sortIntoLe le acc l).Pairwise (fun x y => le x y = true)
  | [], acc, hacc => hacc
  | a :: as, acc, hacc =>
    pairwise_sortIntoLe le htot htr as (insLe le a acc) (pairwise_insLe le htot htr a acc hacc)

theorem pairwise_sortLe {α : Type} (le : α → α → Bool)
    (htot : ∀ a b, le a b = true ∨ le b a = true)
    (htr : ∀ a b c, le a b = true → le b c = true → le a c = true) (l : List α) :
    (sortLe le l).Pairwise (fun x y => le x y = true) :=
  pairwise_sortIntoLe le htot htr l [] List.Pairwise.nil

theorem insLe_eq_cons {α : Type} (le : α → α → Bool) (a : α) :
    ∀ m : List α, (∀ x ∈ m, ¬ le x a = true) → insLe le a m = a :: m
  | [], _ => rfl
  | b :: bs, h => by
    simp only [insLe]
    rw [if_neg (h b (by simp))]

theorem filter_insLe {α : Type} (le : α → α → Bool)
    (htr : ∀ a b c, le a b = true → le b c = true → le a c = true)
    (p : α → Bool) (a : α) :
    ∀ l : List α, l.Pairwise (fun x y => le x y = true) →
      (insLe le a l).filter p = if p a then insLe le a (l.filter p) else l.filter p
  | [], _ => by
    cases hpa : p a <;> simp [insLe, hpa, List.filter]
  | b :: bs, hp => by
    rcases List.pairwise_cons.mp hp with ⟨hb, hbs⟩
    simp only [insLe]
    by_cases hba : le b a = true
    · rw [if_pos hba]
      cases hpa : p a
      · cases hpb : p b <;>
          simp [List.filter_cons, hpa, hpb, filter_insLe le htr p a bs hbs]
      · cases hpb : p b <;>
          simp [List.filter_cons, hpa, hpb, filter_insLe le htr p a bs hbs, insLe, hba]
    · rw [if_neg hba]
      cases hpa : p a
      · simp [List.filter_cons, hpa]
      · cases hpb : p b
        · simp only [List.filter_cons, hpa, hpb, if_pos, if_neg, Bool.false_eq_true,
            ite_false, ite_true]
          rw [insLe_eq_cons]
          intro x hx
          intro hxa
          exact hba (htr b x a (hb x (List.mem_of_mem_filter hx)) hxa)
        · simp [List.filter_cons, hpa, hpb, insLe, hba]

theorem filter_sortIntoLe {α : Type} (le : α → α → Bool)
    (htot : ∀ a b, le a b = true ∨ le b a = true)
    (htr : ∀ a b c, le a b = true → le b c = true → le a c = true)
    (p : α → Bool) :
    ∀ (l acc : List α), acc.Pairwise (fun x y => le x y = true) →
      (sortIntoLe le acc l).filter p = sortIntoLe le (acc.filter p) (l.filter p)
  | [], acc, _ => by simp [sortIntoLe]
  | a :: as, acc, hacc => by
    simp only [sortIntoLe, List.filter_cons]
    rw [filter_sortIntoLe le htot htr p as (insLe le a acc)
      (pairwise_insLe le htot htr a acc hacc)]
    rw [filter_insLe le htr p a acc hacc]
    cases hpa : p a
    · simp [sortIntoLe]
    · simp [sortIntoLe]

theorem filter_sortLe {α : Type} (le : α → α → Bool)
    (htot : ∀ a b, le a b = true ∨ le b a = true)
    (htr : ∀ a b c, le a b = true → le b c = true → le a c = true)
    (p : α → Bool) (l : List α) :
    (sortLe le l).filter p = sortLe le (l.filter p) :=
  filter_sortIntoLe le htot htr p l [] List.Pairwise.nil

theorem map_insLe {α κ : Type} (le : α → α → Bool) (kle : κ → κ → Bool) (f : α → κ)
    (hk : ∀ a b, le a b = kle (f a) (f b)) (a : α) :
    ∀ l : List α, (insLe le a l).map f = insLe kle (f a) (l.map f)
  | [] => rfl
  | b :: bs => by
    simp only [insLe, List.map_cons, hk]
    by_cases h : kle (f b) (f a) = true
    · rw [if_pos h, if_pos h, List.map_cons, map_insLe le kle f hk a bs]
    · rw [if_neg h, if_neg h, List.map_cons, List.map_cons]

theorem map_sortIntoLe {α κ : Type} (le : α → α → Bool) (kle : κ → κ → Bool) (f : α → κ)
    (hk : ∀ a b, le a b = kle (f a) (f b)) :
    ∀ (l acc : List α), (sortIntoLe le acc l).map f = sortIntoLe kle (acc.map f) (l.map f)
  | [], acc => by simp [sortIntoLe]
  | a :: as, acc => by
    simp only [sortIntoLe, List.map_cons]
    rw [map_sortIntoLe le kle f hk as (insLe le a acc), map_insLe le kle f hk a acc]

theorem map_sortLe {α κ : Type} (le : α → α → Bool) (kle : κ → κ → Bool) (f : α → κ)
    (hk : ∀ a b, le a b = kle (f a) (f b)) (l : List α) :
    (sortLe le l).map f = sortLe kle (l.map f) :=
  map_sortIntoLe le kle f hk l []

/-! ## Loop unfolding equations -/

theorem foldSteps_cons_err (st : LoopState) (e : RawEvent) (es : List RawEvent) (err : PyErr)
    (h : step st e = .error err) : foldSteps st (e :: es) = .error err := by
  simp [foldSteps, h]

theorem foldSteps_cons_ok (st st' : LoopState) (e : RawEvent) (es : List RawEvent)
    (h : step st e = .ok st') : foldSteps st (e :: es) = foldSteps st' es := by
  simp [foldSteps, h]

theorem foldS_cons_err (ss : Option DT × Option Agg) (e : RawEvent) (es : List RawEvent)
    (err : PyErr) (h : stepS ss e = .error err) : foldS ss (e :: es) = .error err := by
  simp [foldS, h]

theorem foldS_cons_ok (ss ss' : Option DT × Option Agg) (e : RawEvent) (es : List RawEvent)
    (h : stepS ss e = .ok ss') : foldS ss (e :: es) = foldS ss' es := by
  simp [foldS, h]

theorem filterS_cons_self (e : RawEvent) (es : List RawEvent) :
    filterS e.session_id (e :: es) = e :: filterS e.session_id es := by
  simp [filterS]

theorem filterS_cons_ne (s : String) (e : RawEvent) (es : List RawEvent)
    (h : s ≠ e.session_id) : filterS s (e :: es) = filterS s es := by
  simp only [filterS, List.filter_cons]
  rw [if_neg]
  simp only [beq_iff_eq]
  exact fun hc => h (by simp [hc])


/-! ## Branch equations for the loop body -/

theorem stepParsed_start (st : LoopState) (sid ty : String) (t : DT)
    (hty : ty = "buffer_start") :
    stepParsed st sid ty t = .ok { st with pending := setk sid t st.pending } := by
  simp [stepParsed, hty]

theorem stepParsed_end_pair (st : LoopState) (sid ty : String) (t t0 : DT) (d : Int)
    (hty : ty = "buffer_end") (hl : lookupk sid st.pending = some t0)
    (hd : dtSub t t0 = some d) :
    stepParsed st sid ty t =
      .ok { st with pending := delk sid st.pending,
                    agg := setk sid (bumpA (lookupk sid st.agg) d) st.agg } := by
  simp [stepParsed, hty, hl, hd]

theorem stepParsed_end_mixed (st : LoopState) (sid ty : String) (t t0 : DT)
    (hty : ty = "buffer_end") (hl : lookupk sid st.pending = some t0)
    (hd : dtSub t t0 = none) :
    stepParsed st sid ty t = .error .typeError := by
  simp [stepParsed, hty, hl, hd]

theorem stepParsed_end_unmatched (st : LoopState) (sid ty : String) (t : DT)
    (hty : ty = "buffer_end") (hl : lookupk sid st.pending = none) :
    stepParsed st sid ty t = .ok { st with diags := st.diags ++ [.unmatchedEnd sid] } := by
  simp [stepParsed, hty, hl]

theorem stepParsed_other (st : LoopState) (sid ty : String) (t : DT)
    (h1 : ¬ ty = "buffer_start") (h2 : ¬ ty = "buffer_end") :
    stepParsed st sid ty t = .ok st := by
  simp [stepParsed, h1, h2]

theorem stepSParsed_start (ss : Option DT × Option Agg) (ty : String) (t : DT)
    (hty : ty = "buffer_start") :
    stepSParsed ss ty t = .ok (some t, ss.2) := by
  simp [stepSParsed, hty]

theorem stepSParsed_end_pair (ss : Option DT × Option Agg) (ty : String) (t t0 : DT) (d : Int)
    (hty : ty = "buffer_end") (hl : ss.1 = some t0) (hd : dtSub t t0 = some d) :
    stepSParsed ss ty t = .ok (none, some (bumpA ss.2 d)) := by
  simp [stepSParsed, hty, hl, hd]

theorem stepSParsed_end_mixed (ss : Option DT × Option Agg) (ty : String) (t t0 : DT)
    (hty : ty = "buffer_end") (hl : ss.1 = some t0) (hd : dtSub t t0 = none) :
    stepSParsed ss ty t = .error .typeError := by
  simp [stepSParsed, hty, hl, hd]

theorem stepSParsed_end_unmatched (ss : Option DT × Option Agg) (ty : String) (t : DT)
    (hty : ty = "buffer_end") (hl : ss.1 = none) :
    stepSParsed ss ty t = .ok ss := by
  simp [stepSParsed, hty, hl]

theorem stepSParsed_other (ss : Option DT × Option Agg) (ty : String) (t : DT)
    (h1 : ¬ ty = "buffer_start") (h2 : ¬ ty = "buffer_end") :
    stepSParsed ss ty t = .ok ss := by
  simp [stepSParsed, h1, h2]

theorem step_int (st : LoopState) (e : RawEvent) (n : Int) (h : e.timestamp = .intVal n) :
    step st e = .error .attributeError := by
  simp [step, h]

theorem step_str_none (st : LoopState) (e : RawEvent) (raw : String)
    (h : e.timestamp = .str raw) (hp : parseTimestampStr raw = none) :
    step st e = .ok { st with diags := st.diags ++ [.invalidTimestamp raw] } := by
  simp [step, h, hp]

theorem step_str_some (st : LoopState) (e : RawEvent) (raw : String) (t : DT)
    (h : e.timestamp = .str raw) (hp : parseTimestampStr raw = some t) :
    step st e = stepParsed st e.session_id e.event_type t := by
  simp [step, h, hp]

theorem stepS_int (ss : Option DT × Option Agg) (e : RawEvent) (n : Int)
    (h : e.timestamp = .intVal n) : stepS ss e = .error .attributeError := by
  simp [stepS, h]

theorem stepS_str_none (ss : Option DT × Option Agg) (e : RawEvent) (raw : String)
    (h : e.timestamp = .str raw) (hp : parseTimestampStr raw = none) :
    stepS ss e = .ok ss := by
  simp [stepS, h, hp]

theorem stepS_str_some (ss : Option DT × Option Agg) (e : RawEvent) (raw : String) (t : DT)
    (h : e.timestamp = .str raw) (hp : parseTimestampStr raw = some t) :
    stepS ss e = stepSParsed ss e.event_type t := by
  simp [stepS, h, hp]

/-! ## Locality: one loop step seen from one session -/

theorem stepParsed_err_iff (st : LoopState) (sid ty : String) (t : DT) (err : PyErr) :
    stepParsed st sid ty t = .error err ↔ stepSParsed (proj sid st) ty t = .error err := by
  by_cases h1 : ty = "buffer_start"
  · rw [stepParsed_start st sid ty t h1, stepSParsed_start (proj sid st) ty t h1]
    simp
  · by_cases h2 : ty = "buffer_end"
    · cases hl : lookupk sid st.pending with
      | none =>
        rw [stepParsed_end_unmatched st sid ty t h2 hl,
          stepSParsed_end_unmatched (proj sid st) ty t h2 hl]
        simp
      | some t0 =>
        cases hd : dtSub t t0 with
        | none =>
          rw [stepParsed_end_mixed st sid ty t t0 h2 hl hd,
            stepSParsed_end_mixed (proj sid st) ty t t0 h2 hl hd]
          simp
        | some d =>
          rw [stepParsed_end_pair st sid ty t t0 d h2 hl hd,
            stepSParsed_end_pair (proj sid st) ty t t0 d h2 hl hd]
          simp
    · rw [stepParsed_other st sid ty t h1 h2, stepSParsed_other (proj sid st) ty t h1 h2]
      simp

theorem stepParsed_ok_proj (st st' : LoopState) (sid ty : String) (t : DT)
    (h : stepParsed st sid ty t = .ok st') :
    stepSParsed (proj sid st) ty t = .ok (proj sid st') := by
  by_cases h1 : ty = "buffer_start"
  · rw [stepParsed_start st sid ty t h1] at h
    rw [stepSParsed_start (proj sid st) ty t h1]
    obtain rfl : _ = st' := (Except.ok.inj h)
    simp [proj, lookupk_setk_self]
  · by_cases h2 : ty = "buffer_end"
    · cases hl : lookupk sid st.pending with
      | none =>
        rw [stepParsed_end_unmatched st sid ty t h2 hl] at h
        rw [stepSParsed_end_unmatched (proj sid st) ty t h2 hl]
        obtain rfl : _ = st' := (Except.ok.inj h)
        simp [proj]
      | some t0 =>
        cases hd : dtSub t t0 with
        | none =>
          rw [stepParsed_end_mixed st sid ty t t0 h2 hl hd] at h
          exact absurd h (by simp)
        | some d =>
          rw [stepParsed_end_pair st sid ty t t0 d h2 hl hd] at h
          rw [stepSParsed_end_pair (proj sid st) ty t t0 d h2 hl hd]
          obtain rfl : _ = st' := (Except.ok.inj h)
          simp [proj, lookupk_delk_self, lookupk_setk_self]
    · rw [stepParsed_other st sid ty t h1 h2] at h
      rw [stepSParsed_other (proj sid st) ty t h1 h2]
      obtain rfl : _ = st' := (Except.ok.inj h)
      rfl

theorem stepParsed_ok_other (st st' : LoopState) (sid ty s : String) (t : DT)
    (h : stepParsed st sid ty t = .ok st') (hs : s ≠ sid) : proj s st' = proj s st := by
  by_cases h1 : ty = "buffer_start"
  · rw [stepParsed_start st sid ty t h1] at h
    obtain rfl : _ = st' := (Except.ok.inj h)
    simp [proj, lookupk_setk_ne sid s t hs]
  · by_cases h2 : ty = "buffer_end"
    · cases hl : lookupk sid st.pending with
      | none =>
        rw [stepParsed_end_unmatched st sid ty t h2 hl] at h
        obtain rfl : _ = st' := (Except.ok.inj h)
        rfl
      | some t0 =>
        cases hd : dtSub t t0 with
        | none =>
          rw [stepParsed_end_mixed st sid ty t t0 h2 hl hd] at h
          exact absurd h (by simp)
        | some d =>
          rw [stepParsed_end_pair st sid ty t t0 d h2 hl hd] at h
          obtain rfl : _ = st' := (Except.ok.inj h)
          simp [proj, lookupk_delk_ne sid s hs, lookupk_setk_ne sid s _ hs]
    · rw [stepParsed_other st sid ty t h1 h2] at h
      obtain rfl : _ = st' := (Except.ok.inj h)
      rfl

theorem step_err_iff (st : LoopState) (e : RawEvent) (err : PyErr) :
    step st e = .error err ↔ stepS (proj e.session_id st) e = .error err := by
  cases ht : e.timestamp with
  | intVal n =>
    rw [step_int st e n ht, stepS_int (proj e.session_id st) e n ht]
    simp
  | str raw =>
    cases hp : parseTimestampStr raw with
    | none =>
      rw [step_str_none st e raw ht hp, stepS_str_none (proj e.session_id st) e raw ht hp]
      simp
    | some t =>
      rw [step_str_some st e raw t ht hp, stepS_str_some (proj e.session_id st) e raw t ht hp]
      exact stepParsed_err_iff st e.session_id e.event_type t err

theorem step_ok_proj (st st' : LoopState) (e : RawEvent)
    (h : step st e = .ok st') :
    stepS (proj e.session_id st) e = .ok (proj e.session_id st') := by
  cases ht : e.timestamp with
  | intVal n =>
    rw [step_int st e n ht] at h
    exact absurd h (by simp)
  | str raw =>
    cases hp : parseTimestampStr raw with
    | none =>
      rw [step_str_none st e raw ht hp] at h
      rw [stepS_str_none (proj e.session_id st) e raw ht hp]
      obtain rfl : _ = st' := (Except.ok.inj h)
      rfl
    | some t =>
      rw [step_str_some st e raw t ht hp] at h
      rw [stepS_str_some (proj e.session_id st) e raw t ht hp]
      exact stepParsed_ok_proj st st' e.session_id e.event_type t h

theorem step_ok_other (st st' : LoopState) (e : RawEvent) (s : String)
    (h : step st e = .ok st') (hs : s ≠ e.session_id) : proj s st' = proj s st := by
  cases ht : e.timestamp with
  | intVal n =>
    rw [step_int st e n ht] at h
    exact absurd h (by simp)
  | str raw =>
    cases hp : parseTimestampStr raw with
    | none =>
      rw [step_str_none st e raw ht hp] at h
      obtain rfl : _ = st' := (Except.ok.inj h)
      rfl
    | some t =>
      rw [step_str_some st e raw t ht hp] at h
      exact stepParsed_ok_other st st' e.session_id e.event_type s t h hs

/-! ## Projection of the whole loop onto one session -/

theorem foldSteps_proj :
    ∀ (es : List RawEvent) (st st' : LoopState),
      foldSteps st es = .ok st' →
      ∀ s : String, foldS (proj s st) (filterS s es) = .ok (proj s st')
  | [], st, st', h, s => by
    simp only [foldSteps, Except.ok.injEq] at h
    subst h
    simp [filterS, foldS]
  | e :: es, st, st', h, s => by
    cases hstep : step st e with
    | error err =>
      rw [foldSteps_cons_err st e es err hstep] at h
      exact absurd h (by simp)
    | ok st1 =>
      rw [foldSteps_cons_ok st st1 e es hstep] at h
      by_cases hs : s = e.session_id
      · subst hs
        rw [filterS_cons_self, foldS_cons_ok _ _ e _ (step_ok_proj st st1 e hstep)]
        exact foldSteps_proj es st1 st' h _
      · rw [filterS_cons_ne s e es hs, ← step_ok_other st st1 e s hstep hs]
        exact foldSteps_proj es st1 st' h s

theorem foldSteps_err :
    ∀ (es : List RawEvent) (st : LoopState) (err : PyErr),
      foldSteps st es = .error err →
      ∃ s : String, foldS (proj s st) (filterS s es) = .error err
  | [], st, err, h => by simp [foldSteps] at h
  | e :: es, st, err, h => by
    cases hstep : step st e with
    | error err1 =>
      rw [foldSteps_cons_err st e es err1 hstep] at h
      have herr : err1 = err := by
        injection h
      subst herr
      refine ⟨e.session_id, ?_⟩
      rw [filterS_cons_self]
      exact foldS_cons_err _ e _ err1 ((step_err_iff st e err1).mp hstep)
    | ok st1 =>
      rw [foldSteps_cons_ok st st1 e es hstep] at h
      obtain ⟨s, hserr⟩ := foldSteps_err es st1 err h
      refine ⟨s, ?_⟩
      by_cases hs : s = e.session_id
      · subst hs
        rw [filterS_cons_self, foldS_cons_ok _ _ e _ (step_ok_proj st st1 e hstep)]
        exact hserr
      · rw [filterS_cons_ne s e es hs, ← step_ok_other st st1 e s hstep hs]
        exact hserr

/-! ## Which exception can occur -/

theorem stepParsed_err_type (st : LoopState) (sid ty : String) (t : DT) (err : PyErr)
    (h : stepParsed st sid ty t = .error err) : err = .typeError := by
  by_cases h1 : ty = "buffer_start"
  · rw [stepParsed_start st sid ty t h1] at h
    exact absurd h (by simp)
  · by_cases h2 : ty = "buffer_end"
    · cases hl : lookupk sid st.pending with
      | none =>
        rw [stepParsed_end_unmatched st sid ty t h2 hl] at h
        exact absurd h (by simp)
      | some t0 =>
        cases hd : dtSub t t0 with
        | none =>
          rw [stepParsed_end_mixed st sid ty t t0 h2 hl hd] at h
          exact (Except.error.inj h).symm
        | some d =>
          rw [stepParsed_end_pair st sid ty t t0 d h2 hl hd] at h
          exact absurd h (by simp)
    · rw [stepParsed_other st sid ty t h1 h2] at h
      exact absurd h (by simp)

theorem step_str_errType (st : LoopState) (e : RawEvent) (err : PyErr) (raw : String)
    (hstr : e.timestamp = .str raw) (h : step st e = .error err) : err = .typeError := by
  cases hp : parseTimestampStr raw with
  | none =>
    rw [step_str_none st e raw hstr hp] at h
    exact absurd h (by simp)
  | some t =>
    rw [step_str_some st e raw t hstr hp] at h
    exact stepParsed_err_type st e.session_id e.event_type t err h

theorem foldSteps_str_err :
    ∀ (es : List RawEvent) (st : LoopState) (err : PyErr),
      (∀ e ∈ es, isStrTs e.timestamp = true) →
      foldSteps st es = .error err → err = .typeError
  | [], st, err, _, h => by simp [foldSteps] at h
  | e :: es, st, err, hstr, h => by
    cases hstep : step st e with
    | error err1 =>
      rw [foldSteps_cons_err st e es err1 hstep] at h
      have herr : err1 = err := by
        injection h
      subst herr
      obtain ⟨raw, hraw⟩ : ∃ raw, e.timestamp = .str raw := by
        have hst := hstr e (by simp)
        cases ht : e.timestamp with
        | str r => exact ⟨r, rfl⟩
        | intVal n =>
          rw [ht] at hst
          simp [isStrTs] at hst
      exact step_str_errType st e err1 raw hraw hstep
    | ok st1 =>
      rw [foldSteps_cons_ok st st1 e es hstep] at h
      exact foldSteps_str_err es st1 err (fun x hx => hstr x (by simp [hx])) h

theorem foldSteps_int_head (st : LoopState) (e : RawEvent) (es : List RawEvent) (n : Int)
    (h : e.timestamp = .intVal n) : foldSteps st (e :: es) = .error .attributeError :=
  foldSteps_cons_err st e es _ (step_int st e n h)

/-! ## Trace and pairing equations -/

theorem parsedTrace_cons_str_some (e : RawEvent) (es : List RawEvent) (raw : String) (t : DT)
    (h : e.timestamp = .str raw) (hp : parseTimestampStr raw = some t) :
    parsedTrace (e :: es) = (e.event_type, t.secs) :: parsedTrace es := by
  simp [parsedTrace, h, hp]

theorem parsedTrace_cons_str_none (e : RawEvent) (es : List RawEvent) (raw : String)
    (h : e.timestamp = .str raw) (hp : parseTimestampStr raw = none) :
    parsedTrace (e :: es) = parsedTrace es := by
  simp [parsedTrace, h, hp]

theorem pairsOf_cons_start (p : Option Int) (ty : String) (t : Int)
    (rest : List (String × Int)) (h : ty = "buffer_start") :
    pairsOf p ((ty, t) :: rest) = pairsOf (some t) rest := by
  simp [pairsOf, h]

theorem pairsOf_cons_end_some (p : Option Int) (ty : String) (t t0 : Int)
    (rest : List (String × Int)) (h : ty = "buffer_end") (hp : p = some t0) :
    pairsOf p ((ty, t) :: rest) = (t0, t) :: pairsOf none rest := by
  simp [pairsOf, h, hp]

theorem pairsOf_cons_end_none (ty : String) (t : Int)
    (rest : List (String × Int)) (h : ty = "buffer_end") :
    pairsOf none ((ty, t) :: rest) = pairsOf none rest := by
  simp [pairsOf, h]

theorem pairsOf_cons_other (p : Option Int) (ty : String) (t : Int)
    (rest : List (String × Int)) (h1 : ¬ ty = "buffer_start") (h2 : ¬ ty = "buffer_end") :
    pairsOf p ((ty, t) :: rest) = pairsOf p rest := by
  simp [pairsOf, h1, h2]

theorem naive_str (v : TSVal) (hn : naiveTsB v = true) : ∃ raw, v = TSVal.str raw := by
  cases v with
  | str r => exact ⟨r, rfl⟩
  | intVal n => simp [naiveTsB] at hn

theorem naive_off (raw : String) (t : DT) (hn : naiveTsB (.str raw) = true)
    (hp : parseTimestampStr raw = some t) : t.off = none := by
  simp only [naiveTsB, hp] at hn
  exact Option.isNone_iff_eq_none.mp hn

theorem dtSub_naive (a b : DT) (ha : a.off = none) (hb : b.off = none) :
    dtSub a b = some (a.secs - b.secs) := by
  simp [dtSub, ha, hb]

theorem addPairs_nil (a : Option Agg) : addPairs a [] = a := by
  simp [addPairs]

theorem addPairs_cons (a : Option Agg) (t0 t1 : Int) (ps : List (Int × Int)) :
    addPairs a ((t0, t1) :: ps) = addPairs (some (bumpA a (t1 - t0))) ps := by
  cases ps with
  | nil =>
    cases a <;> simp [addPairs, sumDur, bumpA]
  | cons q qs =>
    cases a <;>
      simp [addPairs, sumDur, bumpA, Agg.mk.injEq] <;>
      omega

/-! ## The per-session fold computes the sum over matched pairs -/

theorem foldS_pairs :
    ∀ (es : List RawEvent) (p : Option DT) (a : Option Agg),
      (∀ e ∈ es, naiveTsB e.timestamp = true) →
      (∀ t, p = some t → t.off = none) →
      ∃ p', (∀ t, p' = some t → t.off = none) ∧
        foldS (p, a) es = .ok (p', addPairs a (pairsOf (p.map DT.secs) (parsedTrace es)))
  | [], p, a, _, hp =>
    ⟨p, hp, by simp [foldS, parsedTrace, pairsOf, addPairs_nil]⟩
  | e :: es, p, a, hn, hp => by
    have hnrest : ∀ x ∈ es, naiveTsB x.timestamp = true := fun x hx => hn x (by simp [hx])
    obtain ⟨raw, hraw⟩ := naive_str e.timestamp (hn e (by simp))
    cases hparse : parseTimestampStr raw with
    | none =>
      rw [foldS_cons_ok _ _ e _ (stepS_str_none _ e raw hraw hparse),
        parsedTrace_cons_str_none e es raw hraw hparse]
      exact foldS_pairs es p a hnrest hp
    | some t =>
      have hoff : t.off = none := naive_off raw t (hraw ▸ hn e (by simp)) hparse
      rw [parsedTrace_cons_str_some e es raw t hraw hparse]
      by_cases h1 : e.event_type = "buffer_start"
      · rw [foldS_cons_ok _ _ e _ ((stepS_str_some _ e raw t hraw hparse).trans
          (stepSParsed_start (p, a) e.event_type t h1))]
        rw [pairsOf_cons_start _ _ _ _ h1]
        have hres := foldS_pairs es (some t) a hnrest
          (fun t' ht' => by
            rw [Option.some.injEq] at ht'
            exact ht' ▸ hoff)
        simpa using hres
      · by_cases h2 : e.event_type = "buffer_end"
        · cases hpend : p with
          | none =>
            rw [foldS_cons_ok _ _ e _ ((stepS_str_some _ e raw t hraw hparse).trans
              (stepSParsed_end_unmatched (none, a) e.event_type t h2 rfl))]
            simp only [Option.map_none']
            rw [pairsOf_cons_end_none _ _ _ h2]
            simpa using foldS_pairs es none a hnrest (fun t' ht' => by cases ht')
          | some t0 =>
            have hofft0 : t0.off = none := hp t0 hpend
            have hd : dtSub t t0 = some (t.secs - t0.secs) := dtSub_naive t t0 hoff hofft0
            rw [foldS_cons_ok _ _ e _ ((stepS_str_some _ e raw t hraw hparse).trans
              (stepSParsed_end_pair (some t0, a) e.event_type t t0 _ h2 rfl hd))]
            simp only [Option.map_some']
            rw [pairsOf_cons_end_some _ _ _ t0.secs _ h2 rfl, addPairs_cons]
            simpa using foldS_pairs es none (some (bumpA a (t.secs - t0.secs))) hnrest
              (fun t' ht' => by cases ht')
        · rw [foldS_cons_ok _ _ e _ ((stepS_str_some _ e raw t hraw hparse).trans
            (stepSParsed_other (p, a) e.event_type t h1 h2))]
          rw [pairsOf_cons_other _ _ _ _ h1 h2]
          exact foldS_pairs es p a hnrest hp

/-! ## Aggregation on naive string timestamps always returns, with the
pair-sum characterisation -/

theorem naive_not_mixed (l : List RawEvent) (h : ∀ e ∈ l, naiveTsB e.timestamp = true) :
    mixedTs l = false := by
  have hany : l.any (fun e => !isStrTs e.timestamp) = false := by
    rw [List.any_eq_false]
    intro e he
    obtain ⟨raw, hraw⟩ := naive_str e.timestamp (h e he)
    simp [hraw, isStrTs]
  simp [mixedTs, hany]

theorem aggregate_naive_ok (l : List RawEvent) (h : ∀ e ∈ l, naiveTsB e.timestamp = true) :
    ∃ m, aggregate_buffering_data l = .ok m ∧ ∀ s : String,
      lookupk s m = addPairs none (pairsOf none (parsedTrace (filterS s (sortL l)))) := by
  have hsort : sortEvents l = .ok (sortL l) := by
    simp [sortEvents, naive_not_mixed l h]
  have hnsorted : ∀ e ∈ sortL l, naiveTsB e.timestamp = true := by
    intro e he
    exact h e ((perm_sortLe evLe l).mem_iff.mp he)
  have hnfilt : ∀ s : String, ∀ e ∈ filterS s (sortL l), naiveTsB e.timestamp = true := by
    intro s e he
    exact hnsorted e (List.mem_of_mem_filter he)
  cases hr : foldSteps initState (sortL l) with
  | error err =>
    obtain ⟨s, hse⟩ := foldSteps_err (sortL l) initState err hr
    obtain ⟨p', _, hok⟩ := foldS_pairs (filterS s (sortL l)) none none (hnfilt s)
      (fun t' ht' => by cases ht')
    have : proj s initState = (none, none) := rfl
    rw [this] at hse
    rw [hok] at hse
    exact absurd hse (by simp)
  | ok st =>
    refine ⟨st.agg, ?_, ?_⟩
    · simp [aggregate_buffering_data, aggregateRun, hsort, hr]
    · intro s
      have hproj := foldSteps_proj (sortL l) initState st hr s
      obtain ⟨p', _, hok⟩ := foldS_pairs (filterS s (sortL l)) none none (hnfilt s)
        (fun t' ht' => by cases ht')
      have : proj s initState = (none, none) := rfl
      rw [this] at hproj
      rw [hok] at hproj
      have hpair := Except.ok.inj hproj
      have := congrArg Prod.snd hpair
      simpa [proj] using this.symm

/-! ## The loop reads only session id, event type and timestamp -/

theorem step_congr (st : LoopState) (e1 e2 : RawEvent) (h : evKey e1 = evKey e2) :
    step st e1 = step st e2 := by
  have hsid : e1.session_id = e2.session_id := congrArg (fun k => k.1) h
  have hty : e1.event_type = e2.event_type := congrArg (fun k => k.2.1) h
  have hts : e1.timestamp = e2.timestamp := congrArg (fun k => k.2.2) h
  simp [step, hsid, hty, hts]

theorem foldSteps_congr :
    ∀ (es1 es2 : List RawEvent) (st : LoopState), es1.map evKey = es2.map evKey →
      foldSteps st es1 = foldSteps st es2
  | [], [], _, _ => rfl
  | [], _ :: _, _, h => by simp at h
  | _ :: _, [], _, h => by simp at h
  | a :: as, b :: bs, st, h => by
    simp only [List.map_cons, List.cons.injEq] at h
    have hstep : step st a = step st b := step_congr st a b h.1
    cases hsb : step st b with
    | error err =>
      rw [foldSteps_cons_err st a as err (hstep.trans hsb),
        foldSteps_cons_err st b bs err hsb]
    | ok st1 =>
      rw [foldSteps_cons_ok st st1 a as (hstep.trans hsb),
        foldSteps_cons_ok st st1 b bs hsb]
      exact foldSteps_congr as bs st1 h.2

theorem any_ts_map (p : TSVal → Bool) :
    ∀ l : List RawEvent, l.any (fun e => p e.timestamp) = (l.map evKey).any (fun k => p k.2.2)
  | [] => rfl
  | e :: es => by
    simp only [List.any_cons, List.map_cons]
    rw [any_ts_map p es]
    rfl

theorem mixedTs_congr (l1 l2 : List RawEvent) (h : l1.map evKey = l2.map evKey) :
    mixedTs l1 = mixedTs l2 := by
  have h1 : ∀ p : TSVal → Bool,
      l1.any (fun e => p e.timestamp) = l2.any (fun e => p e.timestamp) := by
    intro p
    rw [any_ts_map p l1, any_ts_map p l2, h]
  simp only [mixedTs]
  rw [h1 (fun v => isStrTs v), h1 (fun v => !isStrTs v)]

theorem sortL_map_key (l : List RawEvent) :
    (sortL l).map evKey = sortLe keyLe (l.map evKey) :=
  map_sortLe evLe keyLe evKey (fun _ _ => rfl) l

/-! ## Helpers for order independence -/

theorem mem_of_filterS (l1 l2 : List RawEvent) (hf : ∀ s : String, filterS s l1 = filterS s l2) :
    ∀ e : RawEvent, e ∈ l1 ↔ e ∈ l2 := by
  intro e
  constructor
  · intro he
    have h1 : e ∈ filterS e.session_id l1 := by
      simp [filterS, List.mem_filter, he]
    rw [hf e.session_id] at h1
    exact List.mem_of_mem_filter h1
  · intro he
    have h1 : e ∈ filterS e.session_id l2 := by
      simp [filterS, List.mem_filter, he]
    rw [← hf e.session_id] at h1
    exact List.mem_of_mem_filter h1

theorem any_congr (l1 l2 : List RawEvent) (h : ∀ e : RawEvent, e ∈ l1 ↔ e ∈ l2)
    (p : RawEvent → Bool) : l1.any p = l2.any p := by
  cases hb : l2.any p with
  | false =>
    cases hb1 : l1.any p with
    | false => rfl
    | true =>
      rcases List.any_eq_true.mp hb1 with ⟨e, he, hp⟩
      rw [List.any_eq_true.mpr ⟨e, (h e).mp he, hp⟩] at hb
      exact hb
  | true =>
    rcases List.any_eq_true.mp hb with ⟨e, he, hp⟩
    exact List.any_eq_true.mpr ⟨e, (h e).mpr he, hp⟩

theorem filterS_sortL (s : String) (l : List RawEvent) :
    filterS s (sortL l) = sortL (filterS s l) :=
  filter_sortLe evLe evLe_total evLe_trans (fun e => e.session_id == s) l

theorem perm_sortL (l : List RawEvent) : (sortL l).Perm l :=
  perm_sortLe evLe l

theorem sortL_error_attr (l : List RawEvent) (hne : l ≠ [])
    (hint : ∀ e ∈ l, ∃ n, e.timestamp = TSVal.intVal n) :
    foldSteps initState (sortL l) = .error .attributeError := by
  cases hs : sortL l with
  | nil =>
    exfalso
    have hlen : (sortL l).length = l.length := (perm_sortL l).length_eq
    rw [hs] at hlen
    exact hne (List.eq_nil_of_length_eq_zero hlen.symm)
  | cons e es =>
    have hmem : e ∈ sortL l := by
      rw [hs]
      exact List.mem_cons_self e es
    have he : e ∈ l := (perm_sortL l).mem_iff.mp hmem
    obtain ⟨n, hn⟩ := hint e he
    exact foldSteps_int_head initState e es n hn

/-! ## Stability of the sort

Events are tagged with their input position; the sorted tagged list is
pairwise "equal keys keep increasing positions", and untagging gives back the
sort actually performed. -/

theorem evLeIdx_total (a b : Nat × RawEvent) : evLeIdx a b = true ∨ evLeIdx b a = true :=
  evLe_total a.2 b.2

theorem evLeIdx_trans (a b c : Nat × RawEvent) (h1 : evLeIdx a b = true)
    (h2 : evLeIdx b c = true) : evLeIdx a c = true :=
  evLe_trans a.2 b.2 c.2 h1 h2

theorem ins_stb (a : Nat × RawEvent) :
    ∀ acc : List (Nat × RawEvent),
      acc.Pairwise (fun x y => evLeIdx x y = true) →
      acc.Pairwise (fun p q => evLeIdx q p = true → p.1 < q.1) →
      (∀ b ∈ acc, b.1 < a.1) →
      (insLe evLeIdx a acc).Pairwise (fun p q => evLeIdx q p = true → p.1 < q.1)
  | [], _, _, _ => by simp [insLe]
  | b :: bs, hsort, hstb, hidx => by
    rcases List.pairwise_cons.mp hsort with ⟨hble, hsbs⟩
    rcases List.pairwise_cons.mp hstb with ⟨hbstb, hstbs⟩
    simp only [insLe]
    split
    case isTrue h =>
      refine List.pairwise_cons.mpr ⟨?_, ins_stb a bs hsbs hstbs
        (fun x hx => hidx x (by simp [hx]))⟩
      intro x hx
      rcases List.mem_cons.mp ((perm_insLe evLeIdx a bs).mem_iff.mp hx) with rfl | hxbs
      · intro _
        exact hidx b (by simp)
      · exact hbstb x hxbs
    case isFalse h =>
      refine List.pairwise_cons.mpr ⟨?_, hstb⟩
      intro x hx
      rcases List.mem_cons.mp hx with rfl | hxbs
      · intro hxa
        exact absurd hxa h
      · intro hxa
        exact absurd (evLeIdx_trans b x a (hble x hxbs) hxa) h

theorem sortInto_stb :
    ∀ (l acc : List (Nat × RawEvent)),
      acc.Pairwise (fun x y => evLeIdx x y = true) →
      acc.Pairwise (fun p q => evLeIdx q p = true → p.1 < q.1) →
      (∀ b ∈ acc, ∀ x ∈ l, b.1 < x.1) →
      l.Pairwise (fun p q => p.1 < q.1) →
      (sortIntoLe evLeIdx acc l).Pairwise (fun p q => evLeIdx q p = true → p.1 < q.1)
  | [], acc, _, hstb, _, _ => hstb
  | a :: as, acc, hsort, hstb, hidx, hl => by
    rcases List.pairwise_cons.mp hl with ⟨halt, hlas⟩
    refine sortInto_stb as (insLe evLeIdx a acc)
      (pairwise_insLe evLeIdx evLeIdx_total evLeIdx_trans a acc hsort)
      (ins_stb a acc hsort hstb (fun b hb => hidx b hb a (by simp)))
      ?_ hlas
    intro b hb x hx
    rcases List.mem_cons.mp ((perm_insLe evLeIdx a acc).mem_iff.mp hb) with rfl | hbacc
    · exact halt x hx
    · exact hidx b hbacc x (by simp [hx])

theorem le_fst_of_mem_enumFrom :
    ∀ (n : Nat) (l : List RawEvent) (q : Nat × RawEvent), q ∈ l.enumFrom n → n ≤ q.1
  | _, [], _, hq => by simp [List.enumFrom] at hq
  | n, a :: as, q, hq => by
    simp only [List.enumFrom, List.mem_cons] at hq
    rcases hq with rfl | hq
    · exact Nat.le_refl n
    · exact Nat.le_of_succ_le (le_fst_of_mem_enumFrom (n + 1) as q hq)

theorem pairwise_fst_lt_enumFrom :
    ∀ (n : Nat) (l : List RawEvent), (l.enumFrom n).Pairwise (fun p q => p.1 < q.1)
  | _, [] => List.Pairwise.nil
  | n, a :: as => by
    simp only [List.enumFrom]
    refine List.Pairwise.cons ?_ (pairwise_fst_lt_enumFrom (n + 1) as)
    intro q hq
    exact Nat.lt_of_lt_of_le (Nat.lt_succ_self n) (le_fst_of_mem_enumFrom (n + 1) as q hq)

theorem sortLe_enum_stable (l : List RawEvent) :
    (sortLe evLeIdx l.enum).Pairwise (fun p q => evLeIdx q p = true → p.1 < q.1) :=
  sortInto_stb l.enum [] List.Pairwise.nil List.Pairwise.nil
    (fun b hb => by cases hb) (pairwise_fst_lt_enumFrom 0 l)

theorem sortLe_enum_snd (l : List RawEvent) :
    (sortLe evLeIdx l.enum).map Prod.snd = sortL l := by
  rw [map_sortLe evLeIdx evLe Prod.snd (fun _ _ => rfl) l.enum]
  rw [List.enum_map_snd]
  rfl

/-! # Claim theorems -/

/-- C1: On the illustrative dataset returned by `fetch_raw_events_from_db`,
`aggregate_buffering_data` yields exactly session_A ↦ (5.0 s, 2 events),
session_B ↦ (5.0 s, 1 event), session_C ↦ (5.0 s, 1 event), and
`generate_summary_metrics` applied to that mapping yields 3 sessions with
buffering, 15.0 s total buffer time, 4 buffer events, 5.0 s average per
session and 3.75 s average per event. -/
theorem c1_end_to_end_dataset :
    aggregate_buffering_data fetch_raw_events_from_db =
      .ok [("session_A", ⟨5, 2⟩), ("session_B", ⟨5, 1⟩), ("session_C", ⟨5, 1⟩)] ∧
    generate_summary_metrics
        [("session_A", ⟨5, 2⟩), ("session_B", ⟨5, 1⟩), ("session_C", ⟨5, 1⟩)] =
      ⟨3, 15, 4, 5, 15 / 4⟩ := by
  constructor
  · decide
  · simp only [generate_summary_metrics, List.foldl, List.length]
    norm_num

/-- C2: Contrary to the specification, an event whose timestamp is not a
string is not skipped: `.strip('Z')` on the non-string raises
`AttributeError`, which the `except (ValueError, TypeError)` clause does not
catch, so `aggregate_buffering_data` raises instead of returning a mapping.
This theorem evaluates the model at the failing input. -/
theorem c2_nonstring_timestamp_raises :
    aggregate_buffering_data
      [⟨"user_1", "session_X", "buffer_start", .intVal 1698400815⟩] =
      .error .attributeError := by
  decide

/-- C3: Counterexample to processing in chronological order of the denoted
times.  Both timestamps parse (the leading `Z` of the first is removed by
`strip('Z')`), the input list is in strictly chronological order (a 09:00:00
start before a 10:00:00 end), and processing in that order pairs the
interval; yet `aggregate_buffering_data` returns the empty mapping, because
it sorts by the raw string and `"2023…" < "Z2023…"` puts the `buffer_end`
first. -/
theorem c3_counterexample :
    parseTimestampStr "Z2023-10-27T09:00:00" =
      some ⟨dateTimeSecs 2023 10 27 9 0 0, none⟩ ∧
    parseTimestampStr "2023-10-27T10:00:00" =
      some ⟨dateTimeSecs 2023 10 27 10 0 0, none⟩ ∧
    dateTimeSecs 2023 10 27 9 0 0 < dateTimeSecs 2023 10 27 10 0 0 ∧
    foldSteps initState
      [⟨"u1", "s1", "buffer_start", .str "Z2023-10-27T09:00:00"⟩,
       ⟨"u1", "s1", "buffer_end", .str "2023-10-27T10:00:00"⟩] =
      .ok ⟨[], [("s1", ⟨3600, 1⟩)], []⟩ ∧
    aggregate_buffering_data
      [⟨"u1", "s1", "buffer_start", .str "Z2023-10-27T09:00:00"⟩,
       ⟨"u1", "s1", "buffer_end", .str "2023-10-27T10:00:00"⟩] = .ok [] :=
  ⟨by decide, by decide, by decide, by decide, by decide⟩

/-- C3 (amended): `aggregate_buffering_data` processes the events in the
order given by a stable ascending sort on the raw timestamp STRING (bytewise
lexicographic, Python's string order) — not on the chronological instant the
string denotes: the processed list is a permutation of the input, pairwise
ordered by the raw-string order, and ties between equal timestamps keep the
original input positions (stability). -/
theorem c3_sorted_by_raw_string (l : List RawEvent)
    (hstr : ∀ e ∈ l, isStrTs e.timestamp = true) :
    aggregateRun l = foldSteps initState (sortL l) ∧
    (sortL l).Perm l ∧
    (sortL l).Pairwise (fun a b => evLe a b = true) ∧
    (sortLe evLeIdx l.enum).map Prod.snd = sortL l ∧
    (sortLe evLeIdx l.enum).Pairwise (fun p q => evLeIdx q p = true → p.1 < q.1) := by
  have hany : l.any (fun e => !isStrTs e.timestamp) = false := by
    rw [List.any_eq_false]
    intro e he
    simp [hstr e he]
  have hmx : mixedTs l = false := by
    simp [mixedTs, hany]
  refine ⟨?_, perm_sortL l, pairwise_sortLe evLe evLe_total evLe_trans l,
    sortLe_enum_snd l, sortLe_enum_stable l⟩
  simp [aggregateRun, sortEvents, hmx]

/-- C3 witness: the amended claim applied to the illustrative dataset. -/
theorem c3_sorted_witness :
    aggregateRun fetch_raw_events_from_db =
      foldSteps initState (sortL fetch_raw_events_from_db) :=
  (c3_sorted_by_raw_string fetch_raw_events_from_db (by decide)).1

/-- C4: Overwrite policy.  First part: in the per-session view (`foldS`,
which by `foldSteps_proj` is exactly what the loop does to one session's
subsequence), from any pending/aggregate state, a `buffer_start` at `t1`
immediately followed (within the session) by a `buffer_start` at `t2` and a
`buffer_end` at `t3` pairs the end with the SECOND start only: the aggregate
gains duration `t3 - t2` and exactly one event (`bumpA`), `t1` contributes
nothing, and the pending entry is cleared.  Second part: the same for the
full loop (`foldSteps`) when the three events of session `s` are adjacent in
the processed list. -/
theorem c4_second_start_wins :
    (∀ (p : Option DT) (a : Option Agg) (v : List RawEvent) (e1 e2 e3 : RawEvent)
       (r1 r2 r3 : String) (t1 t2 t3 : DT),
      e1.event_type = "buffer_start" → e2.event_type = "buffer_start" →
      e3.event_type = "buffer_end" →
      e1.timestamp = .str r1 → e2.timestamp = .str r2 → e3.timestamp = .str r3 →
      parseTimestampStr r1 = some t1 → parseTimestampStr r2 = some t2 →
      parseTimestampStr r3 = some t3 →
      t2.off = none → t3.off = none →
      foldS (p, a) (e1 :: e2 :: e3 :: v) =
        foldS (none, some (bumpA a (t3.secs - t2.secs))) v) ∧
    (∀ (st : LoopState) (v : List RawEvent) (s : String) (e1 e2 e3 : RawEvent)
       (r1 r2 r3 : String) (t1 t2 t3 : DT),
      e1.session_id = s → e2.session_id = s → e3.session_id = s →
      e1.event_type = "buffer_start" → e2.event_type = "buffer_start" →
      e3.event_type = "buffer_end" →
      e1.timestamp = .str r1 → e2.timestamp = .str r2 → e3.timestamp = .str r3 →
      parseTimestampStr r1 = some t1 → parseTimestampStr r2 = some t2 →
      parseTimestampStr r3 = some t3 →
      t2.off = none → t3.off = none →
      foldSteps st (e1 :: e2 :: e3 :: v) =
        foldSteps { st with
          pending := delk s st.pending,
          agg := setk s (bumpA (lookupk s st.agg) (t3.secs - t2.secs)) st.agg } v) := by
  constructor
  · intro p a v e1 e2 e3 r1 r2 r3 t1 t2 t3 hy1 hy2 hy3 ht1 ht2 ht3 hp1 hp2 hp3 ho2 ho3
    rw [foldS_cons_ok _ _ e1 _ ((stepS_str_some (p, a) e1 r1 t1 ht1 hp1).trans
      (stepSParsed_start (p, a) e1.event_type t1 hy1))]
    rw [foldS_cons_ok _ _ e2 _ ((stepS_str_some (some t1, a) e2 r2 t2 ht2 hp2).trans
      (stepSParsed_start (some t1, a) e2.event_type t2 hy2))]
    rw [foldS_cons_ok _ _ e3 _ ((stepS_str_some (some t2, a) e3 r3 t3 ht3 hp3).trans
      (stepSParsed_end_pair (some t2, a) e3.event_type t3 t2 _ hy3 rfl
        (dtSub_naive t3 t2 ho3 ho2)))]
  · intro st v s e1 e2 e3 r1 r2 r3 t1 t2 t3 hs1 hs2 hs3 hy1 hy2 hy3 ht1 ht2 ht3
      hp1 hp2 hp3 ho2 ho3
    have h1 : step st e1 = .ok { st with pending := setk s t1 st.pending } := by
      rw [step_str_some st e1 r1 t1 ht1 hp1,
        stepParsed_start st e1.session_id e1.event_type t1 hy1, hs1]
    rw [foldSteps_cons_ok st _ e1 _ h1]
    have h2 : step { st with pending := setk s t1 st.pending } e2 =
        .ok { st with pending := setk s t2 st.pending } := by
      rw [step_str_some _ e2 r2 t2 ht2 hp2,
        stepParsed_start _ e2.session_id e2.event_type t2 hy2, hs2, setk_setk]
    rw [foldSteps_cons_ok _ _ e2 _ h2]
    have h3 : step { st with pending := setk s t2 st.pending } e3 =
        .ok { st with pending := delk s st.pending,
                      agg := setk s (bumpA (lookupk s st.agg) (t3.secs - t2.secs)) st.agg } := by
      rw [step_str_some _ e3 r3 t3 ht3 hp3]
      rw [stepParsed_end_pair _ e3.session_id e3.event_type t3 t2 (t3.secs - t2.secs) hy3
        (by rw [hs3]; exact lookupk_setk_self s t2 st.pending)
        (dtSub_naive t3 t2 ho3 ho2)]
      rw [hs3, delk_setk]
    rw [foldSteps_cons_ok _ _ e3 _ h3]

/-- C4 witness: the overwrite policy at a concrete state and events: of the
two starts at 10:00:00 and 10:00:05, only the later one is paired with the
end at 10:00:09, giving 4 seconds and one event. -/
theorem c4_witness :
    foldSteps initState
      [⟨"u", "s", "buffer_start", .str "2023-10-27T10:00:00Z"⟩,
       ⟨"u", "s", "buffer_start", .str "2023-10-27T10:00:05Z"⟩,
       ⟨"u", "s", "buffer_end", .str "2023-10-27T10:00:09Z"⟩] =
      foldSteps { initState with
        pending := delk "s" initState.pending,
        agg := setk "s"
          (bumpA (lookupk "s" initState.agg)
            ((⟨dateTimeSecs 2023 10 27 10 0 9, none⟩ : DT).secs -
              (⟨dateTimeSecs 2023 10 27 10 0 5, none⟩ : DT).secs))
          initState.agg } [] :=
  c4_second_start_wins.2 initState [] "s"
    ⟨"u", "s", "buffer_start", .str "2023-10-27T10:00:00Z"⟩
    ⟨"u", "s", "buffer_start", .str "2023-10-27T10:00:05Z"⟩
    ⟨"u", "s", "buffer_end", .str "2023-10-27T10:00:09Z"⟩
    "2023-10-27T10:00:00Z" "2023-10-27T10:00:05Z" "2023-10-27T10:00:09Z"
    ⟨dateTimeSecs 2023 10 27 10 0 0, none⟩
    ⟨dateTimeSecs 2023 10 27 10 0 5, none⟩
    ⟨dateTimeSecs 2023 10 27 10 0 9, none⟩
    rfl rfl rfl rfl rfl rfl rfl rfl rfl
    (by decide) (by decide) (by decide) rfl rfl

/-- C5: Counterexample to "a session with a pending never-matched start at
end of stream is absent from the result": session `s` completes one pair
(5 s) and then has a trailing `buffer_start`; the run ends with that start
still pending, yet `s` is present in the returned mapping. -/
theorem c5_counterexample :
    aggregateRun
      [⟨"u", "s", "buffer_start", .str "2023-10-27T10:00:00Z"⟩,
       ⟨"u", "s", "buffer_end", .str "2023-10-27T10:00:05Z"⟩,
       ⟨"u", "s", "buffer_start", .str "2023-10-27T10:00:10Z"⟩] =
      .ok ⟨[("s", ⟨dateTimeSecs 2023 10 27 10 0 10, none⟩)], [("s", ⟨5, 1⟩)], []⟩ ∧
    lookupk "s" [("s", (⟨5, 1⟩ : Agg))] = some ⟨5, 1⟩ :=
  ⟨by decide, by decide⟩

/-- C5 (amended): For events with parseable-or-skipped naive string
timestamps, `aggregate_buffering_data` returns a mapping in which every
session's entry is exactly the effect of its matched (start, end) pairs in
processed order — duration the sum of the signed pair durations, count the
number of pairs — orphan events contributing nothing; a session is ABSENT
from the mapping exactly when it has no completed pair (so a session whose
only activity is a pending never-matched start is absent, but a pending
start does not remove a session that also completed pairs). -/
theorem c5_sum_over_pairs (l : List RawEvent)
    (h : ∀ e ∈ l, naiveTsB e.timestamp = true) :
    ∃ m, aggregate_buffering_data l = .ok m ∧ ∀ s : String,
      lookupk s m = addPairs none (pairsOf none (parsedTrace (filterS s (sortL l)))) ∧
      (lookupk s m = none ↔ pairsOf none (parsedTrace (filterS s (sortL l))) = []) := by
  obtain ⟨m, hm, hchar⟩ := aggregate_naive_ok l h
  refine ⟨m, hm, fun s => ⟨hchar s, ?_⟩⟩
  rw [hchar s]
  cases hp : pairsOf none (parsedTrace (filterS s (sortL l))) with
  | nil => simp [addPairs]
  | cons q qs => simp [addPairs]

/-- C5 witness: the pair-sum characterisation instantiated on a concrete
two-event session. -/
theorem c5_witness :
    ∃ m, aggregate_buffering_data
        [⟨"u", "sA", "buffer_start", .str "2023-10-27T10:00:00Z"⟩,
         ⟨"u", "sA", "buffer_end", .str "2023-10-27T10:00:05Z"⟩] = .ok m ∧
      lookupk "sA" m =
        addPairs none (pairsOf none (parsedTrace (filterS "sA" (sortL
          [⟨"u", "sA", "buffer_start", .str "2023-10-27T10:00:00Z"⟩,
           ⟨"u", "sA", "buffer_end", .str "2023-10-27T10:00:05Z"⟩])))) := by
  obtain ⟨m, hm, hs⟩ := c5_sum_over_pairs
    [⟨"u", "sA", "buffer_start", .str "2023-10-27T10:00:00Z"⟩,
     ⟨"u", "sA", "buffer_end", .str "2023-10-27T10:00:05Z"⟩] (by decide)
  exact ⟨m, hm, (hs "sA").1⟩

/-- C6: A `buffer_end` with no pending start for its session is skipped with
an "unmatched end" diagnostic and no exception: the step returns `.ok` and
the state is unchanged except for the appended diagnostic — the per-session
aggregates (`agg`) and the pending-start map (`pending`) are exactly as
before. -/
theorem c6_unmatched_end_skipped (st : LoopState) (e : RawEvent) (raw : String) (t : DT)
    (ht : e.timestamp = .str raw) (hp : parseTimestampStr raw = some t)
    (hy : e.event_type = "buffer_end")
    (hnone : lookupk e.session_id st.pending = none) :
    step st e = .ok { st with diags := st.diags ++ [.unmatchedEnd e.session_id] } :=
  (step_str_some st e raw t ht hp).trans
    (stepParsed_end_unmatched st e.session_id e.event_type t hy hnone)

/-- C6 witness: an unmatched end at the initial state. -/
theorem c6_witness :
    step initState ⟨"u", "s", "buffer_end", .str "2023-10-27T10:00:05Z"⟩ =
      .ok { initState with diags := initState.diags ++ [.unmatchedEnd "s"] } :=
  c6_unmatched_end_skipped initState
    ⟨"u", "s", "buffer_end", .str "2023-10-27T10:00:05Z"⟩
    "2023-10-27T10:00:05Z" ⟨dateTimeSecs 2023 10 27 10 0 5, none⟩
    rfl (by decide) rfl rfl

/-- C7: `generate_summary_metrics` of the empty mapping is all zeros, and in
general each average is the corresponding quotient when its denominator is
positive and `0` when the denominator is zero — never an arithmetic error. -/
theorem c7_zero_safe_averages (m : List (String × Agg)) :
    (m = [] → generate_summary_metrics m = ⟨0, 0, 0, 0, 0⟩) ∧
    ((generate_summary_metrics m).total_sessions_with_buffering > 0 →
      (generate_summary_metrics m).average_buffer_time_per_session_seconds =
        (generate_summary_metrics m).total_buffer_time_seconds /
          ((generate_summary_metrics m).total_sessions_with_buffering : ℚ)) ∧
    ((generate_summary_metrics m).total_sessions_with_buffering = 0 →
      (generate_summary_metrics m).average_buffer_time_per_session_seconds = 0) ∧
    ((generate_summary_metrics m).total_buffer_events > 0 →
      (generate_summary_metrics m).average_buffer_time_per_event_seconds =
        (generate_summary_metrics m).total_buffer_time_seconds /
          ((generate_summary_metrics m).total_buffer_events : ℚ)) ∧
    ((generate_summary_metrics m).total_buffer_events = 0 →
      (generate_summary_metrics m).average_buffer_time_per_event_seconds = 0) := by
  refine ⟨?_, ?_, ?_, ?_, ?_⟩
  · intro h
    subst h
    rfl
  · intro h
    simp only [generate_summary_metrics] at h ⊢
    rw [if_pos h]
  · intro h
    simp only [generate_summary_metrics] at h ⊢
    rw [if_neg (by omega)]
  · intro h
    simp only [generate_summary_metrics] at h ⊢
    rw [if_pos h]
  · intro h
    simp only [generate_summary_metrics] at h ⊢
    rw [if_neg (by omega)]

/-- C7 witness: the empty-mapping case. -/
theorem c7_witness : generate_summary_metrics [] = ⟨0, 0, 0, 0, 0⟩ :=
  (c7_zero_safe_averages []).1 rfl

/-- C8: When a `buffer_end` is paired with a pending start whose parsed time
is LATER than the end's, the computed duration `end - start` is negative and
is added to the session's total as-is (no clamping), and the pair still
increments the event count by one (`bumpA`). -/
theorem c8_negative_duration_passthrough (st : LoopState) (e : RawEvent) (raw : String)
    (t t0 : DT)
    (ht : e.timestamp = .str raw) (hp : parseTimestampStr raw = some t)
    (hy : e.event_type = "buffer_end")
    (hpend : lookupk e.session_id st.pending = some t0)
    (ho : t.off = none) (ho0 : t0.off = none) (hlt : t.secs < t0.secs) :
    t.secs - t0.secs < 0 ∧
    step st e = .ok { st with
      pending := delk e.session_id st.pending,
      agg := setk e.session_id
        (bumpA (lookupk e.session_id st.agg) (t.secs - t0.secs)) st.agg } :=
  ⟨by omega,
   (step_str_some st e raw t ht hp).trans
     (stepParsed_end_pair st e.session_id e.event_type t t0 _ hy hpend
       (dtSub_naive t t0 ho ho0))⟩

/-- C8 witness: an end at 10:00:05 paired with a pending start at 10:00:10
adds the negative duration and one event. -/
theorem c8_witness :
    (⟨dateTimeSecs 2023 10 27 10 0 5, none⟩ : DT).secs -
        (⟨dateTimeSecs 2023 10 27 10 0 10, none⟩ : DT).secs < 0 ∧
    step { initState with
        pending := [("s", ⟨dateTimeSecs 2023 10 27 10 0 10, none⟩)] }
      ⟨"u", "s", "buffer_end", .str "2023-10-27T10:00:05Z"⟩ =
      .ok { { initState with
          pending := [("s", ⟨dateTimeSecs 2023 10 27 10 0 10, none⟩)] } with
        pending := delk "s" [("s", ⟨dateTimeSecs 2023 10 27 10 0 10, none⟩)],
        agg := setk "s"
          (bumpA (lookupk "s" initState.agg)
            ((⟨dateTimeSecs 2023 10 27 10 0 5, none⟩ : DT).secs -
              (⟨dateTimeSecs 2023 10 27 10 0 10, none⟩ : DT).secs))
          initState.agg } :=
  c8_negative_duration_passthrough
    { initState with pending := [("s", ⟨dateTimeSecs 2023 10 27 10 0 10, none⟩)] }
    ⟨"u", "s", "buffer_end", .str "2023-10-27T10:00:05Z"⟩
    "2023-10-27T10:00:05Z"
    ⟨dateTimeSecs 2023 10 27 10 0 5, none⟩
    ⟨dateTimeSecs 2023 10 27 10 0 10, none⟩
    rfl (by decide) rfl (by decide) rfl rfl (by decide)

/-- C9: Order independence of session pairing: two input lists with the same
per-session event subsequences (each session's own order preserved, the
interleaving between sessions arbitrary) give the same outcome per session —
the same uncaught exception, or mappings agreeing on every session's
aggregate. -/
theorem c9_order_independence (l1 l2 : List RawEvent)
    (hf : ∀ s : String, filterS s l1 = filterS s l2) :
    ∀ s : String,
      (aggregate_buffering_data l1).map (lookupk s) =
        (aggregate_buffering_data l2).map (lookupk s) := by
  intro s
  have hmem : ∀ e : RawEvent, e ∈ l1 ↔ e ∈ l2 := mem_of_filterS l1 l2 hf
  have hany : ∀ p : RawEvent → Bool, l1.any p = l2.any p :=
    fun p => any_congr l1 l2 hmem p
  have hmx : mixedTs l1 = mixedTs l2 := by
    simp only [mixedTs]
    rw [hany (fun e => isStrTs e.timestamp), hany (fun e => !isStrTs e.timestamp)]
  by_cases hm : mixedTs l1 = true
  · have hm2 : mixedTs l2 = true := by
      rw [← hmx]
      exact hm
    simp [aggregate_buffering_data, aggregateRun, sortEvents, hm, hm2, Except.map]
  · have hm2 : ¬ mixedTs l2 = true := by
      rw [← hmx]
      exact hm
    have hs1 : sortEvents l1 = .ok (sortL l1) := by
      simp [sortEvents, hm]
    have hs2 : sortEvents l2 = .ok (sortL l2) := by
      simp [sortEvents, hm2]
    have hfs : ∀ s' : String, filterS s' (sortL l1) = filterS s' (sortL l2) := by
      intro s'
      rw [filterS_sortL, filterS_sortL, hf s']
    by_cases hint : l1.any (fun e => !isStrTs e.timestamp) = true
    · have hall : ∀ e ∈ l1, ∃ n, e.timestamp = TSVal.intVal n := by
        intro e he
        cases ht : e.timestamp with
        | intVal n => exact ⟨n, rfl⟩
        | str r =>
          exfalso
          have hstr : l1.any (fun x => isStrTs x.timestamp) = true :=
            List.any_eq_true.mpr ⟨e, he, by simp [ht, isStrTs]⟩
          exact hm (by simp [mixedTs, hstr, hint])
      have hne1 : l1 ≠ [] := by
        rcases List.any_eq_true.mp hint with ⟨e, he, _⟩
        intro hnil
        rw [hnil] at he
        cases he
      have hall2 : ∀ e ∈ l2, ∃ n, e.timestamp = TSVal.intVal n :=
        fun e he => hall e ((hmem e).mpr he)
      have hne2 : l2 ≠ [] := by
        intro hnil
        apply hne1
        rw [List.eq_nil_iff_forall_not_mem]
        intro e he
        rw [hnil] at hmem
        exact (List.not_mem_nil e) ((hmem e).mp he)
      have he1 := sortL_error_attr l1 hne1 hall
      have he2 := sortL_error_attr l2 hne2 hall2
      simp [aggregate_buffering_data, aggregateRun, hs1, hs2, he1, he2, Except.map]
    · have hstr1 : ∀ e ∈ l1, isStrTs e.timestamp = true := by
        intro e he
        cases ht : e.timestamp with
        | str r => simp [isStrTs]
        | intVal n =>
          exfalso
          exact hint (List.any_eq_true.mpr ⟨e, he, by simp [ht, isStrTs]⟩)
      have hstr2 : ∀ e ∈ l2, isStrTs e.timestamp = true :=
        fun e he => hstr1 e ((hmem e).mpr he)
      have hstrs1 : ∀ e ∈ sortL l1, isStrTs e.timestamp = true :=
        fun e he => hstr1 e ((perm_sortL l1).mem_iff.mp he)
      have hstrs2 : ∀ e ∈ sortL l2, isStrTs e.timestamp = true :=
        fun e he => hstr2 e ((perm_sortL l2).mem_iff.mp he)
      cases hr1 : foldSteps initState (sortL l1) with
      | ok st1 =>
        cases hr2 : foldSteps initState (sortL l2) with
        | ok st2 =>
          have h1 := foldSteps_proj (sortL l1) initState st1 hr1 s
          have h2 := foldSteps_proj (sortL l2) initState st2 hr2 s
          rw [hfs s] at h1
          rw [h1] at h2
          have hpq : proj s st1 = proj s st2 := Except.ok.inj h2
          have hsnd : lookupk s st1.agg = lookupk s st2.agg := congrArg Prod.snd hpq
          simp [aggregate_buffering_data, aggregateRun, hs1, hs2, hr1, hr2,
            Except.map, hsnd]
        | error err2 =>
          exfalso
          obtain ⟨s2, herr⟩ := foldSteps_err (sortL l2) initState err2 hr2
          have hok := foldSteps_proj (sortL l1) initState st1 hr1 s2
          rw [hfs s2] at hok
          rw [hok] at herr
          exact absurd herr (by simp)
      | error err1 =>
        cases hr2 : foldSteps initState (sortL l2) with
        | ok st2 =>
          exfalso
          obtain ⟨s1, herr⟩ := foldSteps_err (sortL l1) initState err1 hr1
          have hok := foldSteps_proj (sortL l2) initState st2 hr2 s1
          rw [← hfs s1] at hok
          rw [hok] at herr
          exact absurd herr (by simp)
        | error err2 =>
          have ht1 : err1 = .typeError := foldSteps_str_err _ _ _ hstrs1 hr1
          have ht2 : err2 = .typeError := foldSteps_str_err _ _ _ hstrs2 hr2
          subst ht1
          subst ht2
          simp [aggregate_buffering_data, aggregateRun, hs1, hs2, hr1, hr2, Except.map]

/-- C9 witness: two interleavings of one-event subsequences for sessions `A`
and `B` give the same aggregate for `A`. -/
theorem c9_witness :
    (aggregate_buffering_data
        [⟨"u1", "A", "buffer_start", .str "2023-10-27T10:00:00Z"⟩,
         ⟨"u2", "B", "buffer_start", .str "2023-10-27T10:00:01Z"⟩]).map (lookupk "A") =
      (aggregate_buffering_data
        [⟨"u2", "B", "buffer_start", .str "2023-10-27T10:00:01Z"⟩,
         ⟨"u1", "A", "buffer_start", .str "2023-10-27T10:00:00Z"⟩]).map (lookupk "A") := by
  refine c9_order_independence _ _ ?_ "A"
  intro s
  by_cases h1 : ("A" : String) = s
  · subst h1
    decide
  · by_cases h2 : ("B" : String) = s
    · subst h2
      decide
    · have ha : (("A" : String) == s) = false := beq_eq_false_iff_ne.mpr h1
      have hb : (("B" : String) == s) = false := beq_eq_false_iff_ne.mpr h2
      simp [filterS, List.filter_cons, ha, hb]

/-- C10: The result of `aggregate_buffering_data` does not depend on the
`user_id` field: two input lists whose events agree pointwise on session id,
event type and timestamp (`evKey`) — but may differ arbitrarily in
`user_id` — produce literally the same result. -/
theorem c10_user_id_irrelevant (l1 l2 : List RawEvent)
    (h : l1.map evKey = l2.map evKey) :
    aggregate_buffering_data l1 = aggregate_buffering_data l2 := by
  have hmx := mixedTs_congr l1 l2 h
  have hsorted : (sortL l1).map evKey = (sortL l2).map evKey := by
    rw [sortL_map_key, sortL_map_key, h]
  have hfold := foldSteps_congr (sortL l1) (sortL l2) initState hsorted
  by_cases hm : mixedTs l1 = true
  · have hm2 : mixedTs l2 = true := by
      rw [← hmx]
      exact hm
    simp [aggregate_buffering_data, aggregateRun, sortEvents, hm, hm2]
  · have hm2 : ¬ mixedTs l2 = true := by
      rw [← hmx]
      exact hm
    simp [aggregate_buffering_data, aggregateRun, sortEvents, hm, hm2, hfold]

/-- C10 witness: changing only the `user_id` leaves the result unchanged. -/
theorem c10_witness :
    aggregate_buffering_data
        [⟨"alice", "A", "buffer_start", .str "2023-10-27T10:00:00Z"⟩,
         ⟨"alice", "A", "buffer_end", .str "2023-10-27T10:00:05Z"⟩] =
      aggregate_buffering_data
        [⟨"bob", "A", "buffer_start", .str "2023-10-27T10:00:00Z"⟩,
         ⟨"carol", "A", "buffer_end", .str "2023-10-27T10:00:05Z"⟩] :=
  c10_user_id_irrelevant _ _ (by decide)
